import Mathlib

/-!
Verification of the QuickSight prefetch-and-cache subsystem.

Shallow embedding of the repository's JavaScript sources:
* `src/utils/cache.js`      — `QuickSightCache` (capacity/TTL-bounded store)
* `src/utils/preloader.js`  — `VideoPreloader` (priority scheduler)
* `src/background/service-worker.js` — background dedup (`pendingRequests`)
* `src/ui/ui-manager.js`    — `QuickSightUIManager` (item registry / status)

JavaScript `Map` objects are modelled as insertion-ordered association lists
with string keys; `Date.now()` becomes an explicit `now : Nat` argument.
-/

/-! ## JavaScript `Map` model (insertion-ordered association list) -/

/-- A JavaScript `Map` with string keys: an insertion-ordered association
list.  `Map.prototype.set` on a present key updates the value in place
(keeping the entry's position); on an absent key it appends. -/
abbrev JSMap (β : Type) := List (String × β)

/-- `Map.prototype.get`: first (unique) binding for `k`, if any. -/
def jsGet {β : Type} : JSMap β → String → Option β
  | [], _ => none
  | (k', v) :: rest, k => if k' = k then some v else jsGet rest k

/-- `Map.prototype.has`. -/
def jsHas {β : Type} (m : JSMap β) (k : String) : Bool :=
  (jsGet m k).isSome

/-- `Map.prototype.set`: in-place update when present, append when absent. -/
def jsSet {β : Type} : JSMap β → String → β → JSMap β
  | [], k, v => [(k, v)]
  | (k', v') :: rest, k, v =>
      if k' = k then (k, v) :: rest else (k', v') :: jsSet rest k v

/-- `Map.prototype.delete` (ignoring the returned boolean): removes the
binding for `k`, keeping the order of the others. -/
def jsDelete {β : Type} : JSMap β → String → JSMap β
  | [], _ => []
  | (k', v) :: rest, k =>
      if k' = k then jsDelete rest k else (k', v) :: jsDelete rest k

/-- Iteration order of `Map.prototype.keys()`. -/
def jsKeys {β : Type} (m : JSMap β) : List String :=
  m.map Prod.fst

/-! ## Cache Store — `QuickSightCache` (`src/utils/cache.js`) -/

/-- One stored artifact, as built in `QuickSightCache.set`
(`src/utils/cache.js:38-43`). -/
structure CacheItem (α : Type) where
  value : α
  timestamp : Nat
  ttl : Nat
  accessCount : Nat
  deriving DecidableEq, Repr

/-- State of `QuickSightCache` (`src/utils/cache.js:2-9`).  The two `Map`s
(`cache`, `accessTimes`) are kept verbatim; `Date.now()` is passed into each
operation as `now`. -/
structure QuickSightCache (α : Type) where
  maxSize : Nat
  cache : JSMap (CacheItem α)
  accessTimes : JSMap Nat
  hitCount : Nat
  missCount : Nat
  deriving DecidableEq, Repr

namespace QuickSightCache

/-- `get(key)` (`src/utils/cache.js:11-30`).  Returns the looked-up value and
the successor state.  Note the expiry test is `Date.now() - item.timestamp >
item.ttl`; with `Nat` truncated subtraction this agrees with the JS number
comparison for all `now` (a negative JS difference is never `> ttl ≥ 0`,
matching `now - timestamp = 0`). -/
def get {α : Type} (c : QuickSightCache α) (now : Nat) (k : String) :
    Option α × QuickSightCache α :=
  match jsGet c.cache k with
  | some item =>
      if now - item.timestamp > item.ttl then
        (none, { c with
                   cache := jsDelete c.cache k
                   accessTimes := jsDelete c.accessTimes k
                   missCount := c.missCount + 1 })
      else
        (some item.value,
         { c with
             accessTimes := jsSet c.accessTimes k now
             cache := jsSet c.cache k { item with accessCount := item.accessCount + 1 }
             hitCount := c.hitCount + 1 })
  | none => (none, { c with missCount := c.missCount + 1 })

/-- `evictLRU()`'s scan (`src/utils/cache.js:49-58`): `oldestTime` starts at
`Date.now()` and only entries with *strictly* smaller access time are
considered, in `accessTimes` iteration order. -/
def findOldest : List (String × Nat) → Option String → Nat → Option String
  | [], oldestKey, _ => oldestKey
  | (k, t) :: rest, oldestKey, oldestTime =>
      if t < oldestTime then findOldest rest (some k) t
      else findOldest rest oldestKey oldestTime

/-- `evictLRU()` (`src/utils/cache.js:49-64`).  The final guard is the JS
truthiness test `if (oldestKey)`, which is false both for `null` and for the
empty-string key, so a selected key `""` is not evicted either. -/
def evictLRU {α : Type} (c : QuickSightCache α) (now : Nat) : QuickSightCache α :=
  match findOldest c.accessTimes none now with
  | none => c
  | some k =>
      if k = "" then c
      else { c with cache := jsDelete c.cache k, accessTimes := jsDelete c.accessTimes k }

/-- `set(key, value, ttl = 3600000)` (`src/utils/cache.js:32-47`). -/
def set {α : Type} (c : QuickSightCache α) (now : Nat) (k : String) (v : α)
    (ttl : Nat) : QuickSightCache α :=
  let c1 := if c.cache.length ≥ c.maxSize ∧ ¬ jsHas c.cache k then evictLRU c now else c
  { c1 with
      cache := jsSet c1.cache k ⟨v, now, ttl, 0⟩
      accessTimes := jsSet c1.accessTimes k now }

/-- `has(key)` (`src/utils/cache.js:66-78`): same expiry check and deletion as
`get`, but no hit/miss accounting and no `accessTimes` refresh. -/
def has {α : Type} (c : QuickSightCache α) (now : Nat) (k : String) :
    Bool × QuickSightCache α :=
  match jsGet c.cache k with
  | none => (false, c)
  | some item =>
      if now - item.timestamp > item.ttl then
        (false, { c with
                    cache := jsDelete c.cache k
                    accessTimes := jsDelete c.accessTimes k })
      else (true, c)

/-- `delete(key)` (`src/utils/cache.js:80-83`). -/
def delete {α : Type} (c : QuickSightCache α) (k : String) : QuickSightCache α :=
  { c with cache := jsDelete c.cache k, accessTimes := jsDelete c.accessTimes k }

/-- `clear()` (`src/utils/cache.js:85-88`). -/
def clear {α : Type} (c : QuickSightCache α) : QuickSightCache α :=
  { c with cache := [], accessTimes := [] }

/-- `size()` (`src/utils/cache.js:90-92`). -/
def size {α : Type} (c : QuickSightCache α) : Nat :=
  c.cache.length

/-- `cleanup()` (`src/utils/cache.js:116-132`): collect the expired keys, then
delete each from both maps; returns the number of deleted keys. -/
def cleanup {α : Type} (c : QuickSightCache α) (now : Nat) :
    QuickSightCache α × Nat :=
  let keysToDelete :=
    jsKeys (c.cache.filter (fun p => now - p.2.timestamp > p.2.ttl))
  (keysToDelete.foldl
     (fun acc k =>
       { acc with cache := jsDelete acc.cache k, accessTimes := jsDelete acc.accessTimes k })
     c,
   keysToDelete.length)

end QuickSightCache

/-- The key-set synchronization invariant of C10: the entry map and the
access-time map bind exactly the same keys (in fact in the same order). -/
def keysSync {α : Type} (c : QuickSightCache α) : Prop :=
  jsKeys c.cache = jsKeys c.accessTimes

instance {α : Type} (c : QuickSightCache α) : Decidable (keysSync c) := by
  unfold keysSync; infer_instance

/-! ## Key-set lemmas for the two cache maps -/

theorem jsKeys_jsDelete {β : Type} (m : JSMap β) (k : String) :
    jsKeys (jsDelete m k) = (jsKeys m).filter (fun k' => k' ≠ k) := by
  induction m with
  | nil => rfl
  | cons p rest ih =>
      by_cases h : p.1 = k
      · simp [jsDelete, jsKeys, List.filter_cons, h] at ih ⊢
        exact ih
      · simp [jsDelete, jsKeys, List.filter_cons, h] at ih ⊢
        exact ih

theorem mem_jsKeys_iff_isSome {β : Type} (m : JSMap β) (k : String) :
    k ∈ jsKeys m ↔ (jsGet m k).isSome := by
  induction m with
  | nil => simp [jsKeys, jsGet]
  | cons p rest ih =>
      by_cases h : p.1 = k
      · simp [jsKeys, jsGet, h]
      · have h' : ¬ k = p.1 := fun hk => h hk.symm
        simp only [jsKeys, List.map_cons, List.mem_cons, jsGet, if_neg h]
        constructor
        · rintro (h1 | h1)
          · exact absurd h1 h'
          · exact ih.mp h1
        · intro h1
          exact Or.inr (ih.mpr h1)

theorem jsKeys_jsSet_of_mem {β : Type} (m : JSMap β) (k : String) (v : β)
    (h : k ∈ jsKeys m) : jsKeys (jsSet m k v) = jsKeys m := by
  induction m with
  | nil => simp [jsKeys] at h
  | cons p rest ih =>
      by_cases hp : p.1 = k
      · simp [jsSet, jsKeys, hp]
      · have hk : k ∈ jsKeys rest := by
          rcases (by simpa [jsKeys] using h : k = p.1 ∨ k ∈ List.map Prod.fst rest) with h1 | h1
          · exact absurd h1.symm hp
          · exact h1
        have ih' := ih hk
        simp only [jsKeys, List.map_cons] at ih' ⊢
        simp [jsSet, hp, ih']

theorem jsKeys_jsSet_of_not_mem {β : Type} (m : JSMap β) (k : String) (v : β)
    (h : k ∉ jsKeys m) : jsKeys (jsSet m k v) = jsKeys m ++ [k] := by
  induction m with
  | nil => rfl
  | cons p rest ih =>
      have hp : ¬ p.1 = k := by
        intro hpk
        exact h (by simp [jsKeys, hpk])
      have hrest : k ∉ jsKeys rest := by
        intro hk
        exact h (by simp [jsKeys] at hk ⊢; exact Or.inr hk)
      have ih' := ih hrest
      simp only [jsKeys, List.map_cons] at ih' ⊢
      simp [jsSet, hp, ih']

/-! ## C1 — lazy expiry in `get` and `has` -/

/-- C1: `get(k)` never returns a value whose age exceeds its `ttl`: a hit can
only come from a stored, unexpired entry.  If the stored entry for `k` is
older than its `ttl`, `get(k)` deletes it from both maps, counts the lookup
as a miss and reports a miss; `has(k)` performs the same expiry check and
deletion without touching the hit/miss counters or refreshing access
bookkeeping. -/
theorem c1_lazy_expiry {α : Type} (c : QuickSightCache α) (k : String) (now : Nat) :
    (∀ v, (c.get now k).1 = some v →
       ∃ item, jsGet c.cache k = some item ∧ now - item.timestamp ≤ item.ttl ∧
         v = item.value)
    ∧ (∀ item, jsGet c.cache k = some item → item.ttl < now - item.timestamp →
       c.get now k =
         (none, { c with cache := jsDelete c.cache k,
                         accessTimes := jsDelete c.accessTimes k,
                         missCount := c.missCount + 1 })
       ∧ c.has now k =
         (false, { c with cache := jsDelete c.cache k,
                          accessTimes := jsDelete c.accessTimes k })) := by
  constructor
  · intro v hv
    cases hg : jsGet c.cache k with
    | none => simp [QuickSightCache.get, hg] at hv
    | some item =>
        by_cases hexp : now - item.timestamp > item.ttl
        · simp [QuickSightCache.get, hg, hexp] at hv
        · simp only [QuickSightCache.get, hg, if_neg hexp, Option.some.injEq] at hv
          exact ⟨item, rfl, Nat.le_of_not_lt hexp, hv.symm⟩
  · intro item hg hexp
    refine ⟨?_, ?_⟩
    · simp only [QuickSightCache.get, hg, if_pos hexp]
    · simp only [QuickSightCache.has, hg, if_pos hexp]

/-- A concrete one-entry cache whose entry (stored at time 0, `ttl` 5) is
expired at time 100; used to witness `c1_lazy_expiry`. -/
def cExpired : QuickSightCache Nat :=
  { maxSize := 10, cache := [("a", ⟨7, 0, 5, 0⟩)], accessTimes := [("a", 0)],
    hitCount := 0, missCount := 0 }

theorem c1_lazy_expiry_witness :
    (cExpired.get 100 "a").1 = none ∧ (cExpired.has 100 "a").1 = false := by
  have h := (c1_lazy_expiry cExpired "a" 100).2 ⟨7, 0, 5, 0⟩ (by decide) (by decide)
  exact ⟨by rw [h.1], by rw [h.2]⟩

/-! ## C2 — eviction at capacity -/

/-- A capacity-1 cache holding `"a"` last accessed at time 5; the failing
input for C2 is a `set` of a fresh key at the same millisecond. -/
def cFullSameTick : QuickSightCache Nat :=
  { maxSize := 1, cache := [("a", ⟨1, 5, 1000, 0⟩)], accessTimes := [("a", 5)],
    hitCount := 0, missCount := 0 }

/-- C2 (code bug, evaluated at the failing input): with the store at its
capacity of 1 and every entry's `lastAccessed` equal to the current time,
`set("b", …)` evicts nothing — `evictLRU` starts its scan at
`oldestTime = Date.now()` and only considers strictly smaller access times —
so the size grows to `capacity + 1`, contradicting the claimed invariant
(and the spec's Scenario D, where a cache filled within one millisecond
would grow to 101 entries). -/
theorem c2_set_at_capacity_evicts_nothing :
    cFullSameTick.maxSize = 1 ∧ cFullSameTick.size = 1 ∧
    (cFullSameTick.set 5 "b" 2 1000).size = 2 ∧
    jsGet (cFullSameTick.set 5 "b" 2 1000).cache "a" = some ⟨1, 5, 1000, 0⟩ ∧
    jsGet (cFullSameTick.set 5 "b" 2 1000).cache "b" = some ⟨2, 5, 1000, 0⟩ := by
  decide

/-! ## C10 — the two maps always bind the same keys -/

theorem keys_eq_delete {β γ : Type} {m1 : JSMap β} {m2 : JSMap γ}
    (h : jsKeys m1 = jsKeys m2) (k : String) :
    jsKeys (jsDelete m1 k) = jsKeys (jsDelete m2 k) := by
  rw [jsKeys_jsDelete, jsKeys_jsDelete, h]

theorem keys_eq_set {β γ : Type} {m1 : JSMap β} {m2 : JSMap γ}
    (h : jsKeys m1 = jsKeys m2) (k : String) (v : β) (w : γ) :
    jsKeys (jsSet m1 k v) = jsKeys (jsSet m2 k w) := by
  by_cases hk : k ∈ jsKeys m1
  · rw [jsKeys_jsSet_of_mem _ _ _ hk, jsKeys_jsSet_of_mem _ _ _ (h ▸ hk), h]
  · have hk2 : k ∉ jsKeys m2 := h ▸ hk
    rw [jsKeys_jsSet_of_not_mem _ _ _ hk, jsKeys_jsSet_of_not_mem _ _ _ hk2, h]

theorem keysSync_evictLRU {α : Type} {c : QuickSightCache α} (h : keysSync c)
    (now : Nat) : keysSync (c.evictLRU now) := by
  cases hfo : QuickSightCache.findOldest c.accessTimes none now with
  | none => simp only [QuickSightCache.evictLRU, hfo]; exact h
  | some k =>
      by_cases hk : k = ""
      · simp only [QuickSightCache.evictLRU, hfo, if_pos hk]; exact h
      · simp only [QuickSightCache.evictLRU, hfo, if_neg hk]
        unfold keysSync at h ⊢
        exact keys_eq_delete h k

theorem keysSync_get {α : Type} {c : QuickSightCache α} (h : keysSync c)
    (now : Nat) (k : String) : keysSync (c.get now k).2 := by
  cases hg : jsGet c.cache k with
  | none => simp only [QuickSightCache.get, hg]; exact h
  | some item =>
      by_cases hexp : now - item.timestamp > item.ttl
      · simp only [QuickSightCache.get, hg, if_pos hexp]
        unfold keysSync at h ⊢
        exact keys_eq_delete h k
      · simp only [QuickSightCache.get, hg, if_neg hexp]
        unfold keysSync at h ⊢
        exact keys_eq_set h k _ _

theorem keysSync_set {α : Type} {c : QuickSightCache α} (h : keysSync c)
    (now : Nat) (k : String) (v : α) (ttl : Nat) :
    keysSync (c.set now k v ttl) := by
  by_cases hP : c.cache.length ≥ c.maxSize ∧ ¬ jsHas c.cache k
  · simp only [QuickSightCache.set, if_pos hP]
    have h1 := keysSync_evictLRU h now
    unfold keysSync at h1 ⊢
    exact keys_eq_set h1 k _ _
  · simp only [QuickSightCache.set, if_neg hP]
    unfold keysSync at h ⊢
    exact keys_eq_set h k _ _

theorem keysSync_has {α : Type} {c : QuickSightCache α} (h : keysSync c)
    (now : Nat) (k : String) : keysSync (c.has now k).2 := by
  cases hg : jsGet c.cache k with
  | none => simp only [QuickSightCache.has, hg]; exact h
  | some item =>
      by_cases hexp : now - item.timestamp > item.ttl
      · simp only [QuickSightCache.has, hg, if_pos hexp]
        unfold keysSync at h ⊢
        exact keys_eq_delete h k
      · simp only [QuickSightCache.has, hg, if_neg hexp]
        exact h

theorem keysSync_foldl_delete {α : Type} (ks : List String) :
    ∀ {c : QuickSightCache α}, keysSync c →
      keysSync (ks.foldl
        (fun acc k =>
          { acc with cache := jsDelete acc.cache k,
                     accessTimes := jsDelete acc.accessTimes k }) c) := by
  induction ks with
  | nil => intro c h; exact h
  | cons k ks ih =>
      intro c h
      exact ih (by unfold keysSync at h ⊢; exact keys_eq_delete h k)

/-- C10: starting from any state whose entry map and access-time map bind the
same keys, every Cache Store operation — `get`, `set`, `has`, `delete`,
`clear`, `evictLRU`, `cleanup` — yields a state whose two maps again bind
exactly the same keys: no orphan entry in either map. -/
theorem c10_maps_stay_synchronized {α : Type} (c : QuickSightCache α)
    (h : keysSync c) :
    (∀ now k, keysSync (c.get now k).2)
    ∧ (∀ now k (v : α) ttl, keysSync (c.set now k v ttl))
    ∧ (∀ now k, keysSync (c.has now k).2)
    ∧ (∀ k, keysSync (c.delete k))
    ∧ keysSync c.clear
    ∧ (∀ now, keysSync (c.evictLRU now))
    ∧ (∀ now, keysSync (c.cleanup now).1) := by
  refine ⟨fun now k => keysSync_get h now k,
          fun now k v ttl => keysSync_set h now k v ttl,
          fun now k => keysSync_has h now k,
          fun k => ?_, ?_,
          fun now => keysSync_evictLRU h now,
          fun now => ?_⟩
  · unfold keysSync at h
    unfold QuickSightCache.delete keysSync
    exact keys_eq_delete h k
  · unfold QuickSightCache.clear keysSync
    rfl
  · unfold QuickSightCache.cleanup
    exact keysSync_foldl_delete _ h

theorem c10_maps_stay_synchronized_witness :
    keysSync cExpired ∧ keysSync (cExpired.delete "a") :=
  ⟨by decide, (c10_maps_stay_synchronized cExpired (by decide)).2.2.2.1 "a"⟩

/-! ## Priority Estimator (`src/utils/preloader.js:153-161`, `unnamed/part_006:96-121`)

JavaScript numbers are modelled as rationals; both estimators are pure
functions of their arguments (determinism is immediate in the embedding). -/

/-- The distance of the element's vertical center from the viewport center,
`Math.abs(viewportCenter - elementCenter)`, computed identically in both
estimators from `window.innerHeight` and the element's bounding rectangle. -/
def distanceFromCenter (windowInnerHeight rectTop rectHeight : ℚ) : ℚ :=
  |windowInnerHeight / 2 - (rectTop + rectHeight / 2)|

/-- `VideoPreloader.calculatePriority` (`src/utils/preloader.js:153-161`):
`Math.max(0, 1000 - distanceFromCenter)`. -/
def calculatePriority (windowInnerHeight rectTop rectHeight : ℚ) : ℚ :=
  max 0 (1000 - distanceFromCenter windowInnerHeight rectTop rectHeight)

/-- `PerformanceOptimizer.calculatePriority` (`unnamed/part_006:96-121`):
distance term `Math.max(0, 100 - distanceFromCenter / 10)` plus, when the
corresponding DOM signal is present, a view-count term
`Math.min(50, views / 1000000)` and a recency term.  The DOM extraction
(`parseViewCount` / `parseRecency`) is host-environment glue; the parsed
numbers arrive here as optional arguments. -/
def optimizerCalculatePriority (windowInnerHeight rectTop rectHeight : ℚ)
    (views recency : Option ℚ) : ℚ :=
  let base := max 0 (100 - distanceFromCenter windowInnerHeight rectTop rectHeight / 10)
  let v := match views with
    | some n => min 50 (n / 1000000)
    | none => 0
  let r := match recency with
    | some x => x
    | none => 0
  base + v + r

/-- C9 counterexample: with viewport height 1000, an element centered exactly
at the viewport center (top 450, height 100, distance 0) and no auxiliary
signals scores 100 under `PerformanceOptimizer.calculatePriority`, while a
farther element (top 550, height 100, distance 100) with a 100M view count
scores 90 + 50 = 140 — the closer item receives a strictly lower score, so
the claimed distance monotonicity fails for this estimator. -/
theorem c9_closer_can_score_lower :
    distanceFromCenter 1000 450 100 < distanceFromCenter 1000 550 100 ∧
    optimizerCalculatePriority 1000 450 100 none none <
      optimizerCalculatePriority 1000 550 100 (some 100000000) none := by
  constructor
  · norm_num [distanceFromCenter]
  · norm_num [distanceFromCenter, optimizerCalculatePriority]

/-- C9 amended: both estimators are pure functions (so deterministic on
identical inputs).  For the preloader's estimator, an item whose center is
at most as far from the viewport center as another's scores at least as
high, strictly higher when the closer item's distance is within the scored
range (< 1000).  For the optimizer's estimator the same monotonicity holds
whenever the optional view-count and recency signals of the two items
coincide; differing auxiliary signals can reorder items (see the
counterexample). -/
theorem c9_distance_monotonicity (h t1 ht1 t2 ht2 : ℚ)
    (hd : distanceFromCenter h t1 ht1 ≤ distanceFromCenter h t2 ht2) :
    (calculatePriority h t2 ht2 ≤ calculatePriority h t1 ht1)
    ∧ (distanceFromCenter h t1 ht1 < distanceFromCenter h t2 ht2 →
        distanceFromCenter h t1 ht1 < 1000 →
        calculatePriority h t2 ht2 < calculatePriority h t1 ht1)
    ∧ (∀ views recency : Option ℚ,
        optimizerCalculatePriority h t2 ht2 views recency ≤
          optimizerCalculatePriority h t1 ht1 views recency) := by
  refine ⟨?_, ?_, ?_⟩
  · unfold calculatePriority
    exact max_le_max le_rfl (by linarith)
  · intro hlt hrange
    unfold calculatePriority
    have h1 : (0 : ℚ) < 1000 - distanceFromCenter h t1 ht1 := by linarith
    rw [max_eq_right h1.le]
    exact max_lt h1 (by linarith)
  · intro views recency
    unfold optimizerCalculatePriority
    have hbase : max 0 (100 - distanceFromCenter h t2 ht2 / 10) ≤
        max 0 (100 - distanceFromCenter h t1 ht1 / 10) := by
      refine max_le_max le_rfl ?_
      have : distanceFromCenter h t1 ht1 / 10 ≤ distanceFromCenter h t2 ht2 / 10 := by
        linarith
      linarith
    cases views <;> cases recency <;> simp only [] <;> linarith

theorem c9_distance_monotonicity_witness :
    distanceFromCenter 1000 450 100 ≤ distanceFromCenter 1000 550 100 ∧
    calculatePriority 1000 550 100 ≤ calculatePriority 1000 450 100 := by
  have hd : distanceFromCenter 1000 450 100 ≤ distanceFromCenter 1000 550 100 := by
    norm_num [distanceFromCenter]
  exact ⟨hd, (c9_distance_monotonicity 1000 450 100 550 100 hd).1⟩

/-! ## Request Scheduler — `VideoPreloader` (`src/utils/preloader.js`) -/

/-- A queued request (`src/utils/preloader.js:142-147`): the key plus the
priority computed by `calculatePriority` from the element's geometry (the
`element` reference itself is host-environment glue and is consumed only by
that pure computation). -/
structure SchedReq where
  videoId : String
  priority : ℚ
  deriving DecidableEq, Repr

/-- An entry of the preloader's memory cache
(`src/utils/preloader.js:195-199`). -/
structure PreloadEntry where
  summary : String
  timestamp : Nat
  ttl : Nat
  deriving DecidableEq, Repr

/-- JS `Set.prototype.add` (insertion-ordered, idempotent). -/
def setAdd (s : List String) (k : String) : List String :=
  if k ∈ s then s else s ++ [k]

/-- JS `Set.prototype.delete`. -/
def setDelete (s : List String) (k : String) : List String :=
  s.filter (fun x => x ≠ k)

/-- One step of a stable left-to-right insertion sort: the new element `x`
goes before the first element it strictly precedes, hence after every
earlier element it ties with. -/
def stInsertBy {γ : Type} (lt : γ → γ → Bool) : List γ → γ → List γ
  | [], x => [x]
  | y :: ys, x => if lt x y then x :: y :: ys else y :: stInsertBy lt ys x

/-- `Array.prototype.sort` (stable per ES2019) under a comparator whose
strict "comes first" relation is `lt`: modelled by the stable insertion
sort, whose output is the unique stable ordering. -/
def jsStableSortBy {γ : Type} (lt : γ → γ → Bool) (l : List γ) : List γ :=
  l.foldl (stInsertBy lt) []

/-- The comparator `(a, b) => b.priority - a.priority`
(`src/utils/preloader.js:150`): `a` comes strictly first iff its priority is
strictly higher. -/
def jsSortByPriorityDesc (l : List SchedReq) : List SchedReq :=
  jsStableSortBy (fun a b => a.priority > b.priority) l

/-- State of `VideoPreloader` (`src/utils/preloader.js:2-12`).  `inFlight`
lists the dispatched-but-unsettled requests, implicit in JS as the promises
created by `processVideoRequest` whose `finally` has not yet run.  The
`IntersectionObserver`/DOM scanning and the Chrome-storage mirror are
host-environment glue and out of the modelled core. -/
structure VideoPreloader where
  requestQueue : List SchedReq
  processingQueue : List String
  activeRequests : Nat
  maxConcurrentRequests : Nat
  cacheLimit : Nat
  cache : JSMap PreloadEntry
  inFlight : List SchedReq
  deriving DecidableEq, Repr

/-- The constructor state (`src/utils/preloader.js:3-12`). -/
def initPreloader : VideoPreloader :=
  { requestQueue := [], processingQueue := [], activeRequests := 0,
    maxConcurrentRequests := 3, cacheLimit := 100, cache := [], inFlight := [] }

/-- `queueRequest(video)` (`src/utils/preloader.js:142-151`): push, then
re-sort the whole queue by descending priority with the stable sort. -/
def queueRequest (s : VideoPreloader) (r : SchedReq) : VideoPreloader :=
  { s with requestQueue := jsSortByPriorityDesc (s.requestQueue ++ [r]) }

/-- The `while` loop of `processRequestQueue()`
(`src/utils/preloader.js:163-178`): starting from queue `q` and counter
`active`, repeatedly shift the head and increment `active` while `active <
maxC`; returns (remaining queue, final counter, dispatched requests in
order). -/
def drainLoop (maxC : Nat) : List SchedReq → Nat → List SchedReq × Nat × List SchedReq
  | [], active => ([], active, [])
  | r :: rest, active =>
      if active < maxC then
        let res := drainLoop maxC rest (active + 1)
        (res.1, res.2.1, r :: res.2.2)
      else (r :: rest, active, [])

/-- `processRequestQueue()` (`src/utils/preloader.js:163-178`): run the
dispatch loop; dispatched requests join `inFlight`. -/
def processRequestQueue (s : VideoPreloader) : VideoPreloader :=
  let res := drainLoop s.maxConcurrentRequests s.requestQueue s.activeRequests
  { s with requestQueue := res.1, activeRequests := res.2.1,
           inFlight := s.inFlight ++ res.2.2 }

/-- The `forEach` of `preloadVideos` (`src/utils/preloader.js:134-137`):
each uncached video joins `processingQueue` and is queued by priority. -/
def enqueueAll (s : VideoPreloader) (l : List SchedReq) : VideoPreloader :=
  l.foldl
    (fun acc v => queueRequest { acc with processingQueue := setAdd acc.processingQueue v.videoId } v)
    s

/-- `preloadVideos(videos)` (`src/utils/preloader.js:120-140`): filter out
keys already cached or already processing (against the state *before* the
batch, as the source filters first), add the rest to `processingQueue` and
the priority queue, then drain once. -/
def preloadVideos (s : VideoPreloader) (videos : List SchedReq) : VideoPreloader :=
  let uncached := videos.filter
    (fun v => ¬ jsHas s.cache v.videoId ∧ v.videoId ∉ s.processingQueue)
  processRequestQueue (enqueueAll s uncached)

/-- `manageCacheSize()` (`src/utils/preloader.js:223-237`): when over the
limit, sort the entries by ascending timestamp (stable) and delete the
oldest `size - cacheLimit` of them. -/
def manageCacheSize (s : VideoPreloader) : VideoPreloader :=
  if s.cache.length > s.cacheLimit then
    let entries := jsStableSortBy (fun a b => a.2.timestamp < b.2.timestamp) s.cache
    let toRemove := entries.take (entries.length - s.cacheLimit)
    { s with cache := toRemove.foldl (fun acc p => jsDelete acc p.1) s.cache }
  else s

/-- `processVideoRequest(request)` body plus the `finally` continuation
(`src/utils/preloader.js:163-221`): `outcome = some data` models a
`response.success` reply (cache the summary with a 24h TTL, then
`manageCacheSize`); `outcome = none` models `response.success === false` or
a thrown error (no cache write).  The `finally` then decrements
`activeRequests`, removes the key from `processingQueue` and drains again
(draining an empty queue is a no-op, matching the guarded recursive call). -/
def settleRequest (s : VideoPreloader) (r : SchedReq) (outcome : Option String)
    (now : Nat) : VideoPreloader :=
  let s1 := match outcome with
    | some data =>
        manageCacheSize { s with cache := jsSet s.cache r.videoId ⟨data, now, 86400000⟩ }
    | none => s
  processRequestQueue
    { s1 with inFlight := s1.inFlight.erase r,
              activeRequests := s1.activeRequests - 1,
              processingQueue := setDelete s1.processingQueue r.videoId }

/-- The states the preloader can reach: the constructor state, a
`preloadVideos` batch, or the settlement of a dispatched request (each
promise created at dispatch settles exactly once, hence the `r ∈ inFlight`
side condition). -/
inductive PReach : VideoPreloader → Prop
  | init : PReach initPreloader
  | preload {s : VideoPreloader} (videos : List SchedReq) :
      PReach s → PReach (preloadVideos s videos)
  | settle {s : VideoPreloader} (r : SchedReq) (outcome : Option String) (now : Nat) :
      PReach s → r ∈ s.inFlight → PReach (settleRequest s r outcome now)

/-! ### Drain-loop bookkeeping -/

theorem drainLoop_spec (maxC : Nat) :
    ∀ (q : List SchedReq) (a : Nat),
      q = (drainLoop maxC q a).2.2 ++ (drainLoop maxC q a).1
      ∧ (drainLoop maxC q a).2.1 = a + (drainLoop maxC q a).2.2.length
      ∧ (a ≤ maxC → (drainLoop maxC q a).2.1 ≤ maxC)
      ∧ ((drainLoop maxC q a).1 ≠ [] → ¬ (drainLoop maxC q a).2.1 < maxC) := by
  intro q
  induction q with
  | nil =>
      intro a
      refine ⟨rfl, rfl, fun h => h, fun h => absurd rfl h⟩
  | cons r rest ih =>
      intro a
      by_cases ha : a < maxC
      · have hr := ih (a + 1)
        simp only [drainLoop, if_pos ha]
        refine ⟨?_, ?_, ?_, ?_⟩
        · calc r :: rest
              = r :: ((drainLoop maxC rest (a + 1)).2.2 ++ (drainLoop maxC rest (a + 1)).1) := by
                rw [← hr.1]
            _ = _ := by simp
        · rw [hr.2.1]; simp; omega
        · intro _
          exact hr.2.2.1 (by omega)
        · exact hr.2.2.2
      · simp only [drainLoop, if_neg ha]
        refine ⟨rfl, by simp, fun h => ?_, fun _ => ha⟩
        · omega

/-! ### Field-projection lemmas for the scheduler operations -/

theorem processRequestQueue_spec (s : VideoPreloader) :
    (processRequestQueue s).requestQueue
        = (drainLoop s.maxConcurrentRequests s.requestQueue s.activeRequests).1
    ∧ (processRequestQueue s).activeRequests
        = (drainLoop s.maxConcurrentRequests s.requestQueue s.activeRequests).2.1
    ∧ (processRequestQueue s).inFlight
        = s.inFlight ++ (drainLoop s.maxConcurrentRequests s.requestQueue s.activeRequests).2.2
    ∧ (processRequestQueue s).maxConcurrentRequests = s.maxConcurrentRequests
    ∧ (processRequestQueue s).cache = s.cache
    ∧ (processRequestQueue s).processingQueue = s.processingQueue := by
  unfold processRequestQueue
  exact ⟨rfl, rfl, rfl, rfl, rfl, rfl⟩

theorem manageCacheSize_fields (s : VideoPreloader) :
    (manageCacheSize s).requestQueue = s.requestQueue
    ∧ (manageCacheSize s).activeRequests = s.activeRequests
    ∧ (manageCacheSize s).inFlight = s.inFlight
    ∧ (manageCacheSize s).maxConcurrentRequests = s.maxConcurrentRequests
    ∧ (manageCacheSize s).processingQueue = s.processingQueue := by
  unfold manageCacheSize
  split <;> exact ⟨rfl, rfl, rfl, rfl, rfl⟩

theorem enqueueAll_fields (l : List SchedReq) :
    ∀ s : VideoPreloader,
      (enqueueAll s l).activeRequests = s.activeRequests
      ∧ (enqueueAll s l).inFlight = s.inFlight
      ∧ (enqueueAll s l).maxConcurrentRequests = s.maxConcurrentRequests
      ∧ (enqueueAll s l).cache = s.cache := by
  induction l with
  | nil => exact fun s => ⟨rfl, rfl, rfl, rfl⟩
  | cons v rest ih =>
      intro s
      have h := ih (queueRequest { s with processingQueue := setAdd s.processingQueue v.videoId } v)
      exact ⟨h.1, h.2.1, h.2.2.1, h.2.2.2⟩

/-- C4: in every reachable preloader state the `activeRequests` counter
equals the number of in-flight fetches and never exceeds the concurrency
ceiling `maxConcurrentRequests` (hard-wired to 3 in the constructor); the
dispatch loop pops a queued request only while the counter is strictly below
the ceiling, incrementing at dispatch and decrementing exactly once per
settlement, so requests are left queued only when the counter has hit the
ceiling. -/
theorem c4_concurrency_ceiling (s : VideoPreloader) (h : PReach s) :
    s.activeRequests = s.inFlight.length
    ∧ s.activeRequests ≤ s.maxConcurrentRequests
    ∧ s.maxConcurrentRequests = 3
    ∧ ((processRequestQueue s).requestQueue ≠ [] →
        (processRequestQueue s).activeRequests = s.maxConcurrentRequests) := by
  have main : s.activeRequests = s.inFlight.length
      ∧ s.activeRequests ≤ s.maxConcurrentRequests
      ∧ s.maxConcurrentRequests = 3 := by
    induction h with
    | init => exact ⟨rfl, by decide, rfl⟩
    | @preload s' videos hprev ih =>
        unfold preloadVideos
        set s1 := enqueueAll s' (videos.filter
          (fun v => ¬ jsHas s'.cache v.videoId ∧ v.videoId ∉ s'.processingQueue)) with hs1
        have hf := enqueueAll_fields (videos.filter
          (fun v => ¬ jsHas s'.cache v.videoId ∧ v.videoId ∉ s'.processingQueue)) s'
        have hp := processRequestQueue_spec s1
        have hd := drainLoop_spec s1.maxConcurrentRequests s1.requestQueue s1.activeRequests
        refine ⟨?_, ?_, ?_⟩
        · rw [hp.2.1, hp.2.2.1, hd.2.1, List.length_append, hf.1, hf.2.1, ih.1]
        · rw [hp.2.1, hp.2.2.2.1]
          exact hd.2.2.1 (by rw [hf.1, hf.2.2.1]; exact ih.2.1)
        · rw [hp.2.2.2.1, hf.2.2.1]; exact ih.2.2
    | @settle s' r outcome now hprev hmem ih =>
        have hcard : s'.inFlight.length = s'.activeRequests := ih.1.symm
        have hpos : 1 ≤ s'.inFlight.length := List.length_pos.mpr (List.ne_nil_of_mem hmem)
        unfold settleRequest
        cases outcome with
        | none =>
            set s2 : VideoPreloader :=
              { s' with inFlight := s'.inFlight.erase r,
                        activeRequests := s'.activeRequests - 1,
                        processingQueue := setDelete s'.processingQueue r.videoId } with hs2
            have hp := processRequestQueue_spec s2
            have hd := drainLoop_spec s2.maxConcurrentRequests s2.requestQueue s2.activeRequests
            refine ⟨?_, ?_, ?_⟩
            · rw [hp.2.1, hp.2.2.1, hd.2.1, List.length_append]
              have h2 : s2.activeRequests = s'.activeRequests - 1 := rfl
              have h3 : s2.inFlight.length = s'.inFlight.length - 1 :=
                List.length_erase_of_mem hmem
              rw [h2, h3, hcard]
            · rw [hp.2.1]
              refine hd.2.2.1 ?_
              have h2 : s2.activeRequests = s'.activeRequests - 1 := rfl
              have h4 : s2.maxConcurrentRequests = s'.maxConcurrentRequests := rfl
              rw [h2, h4]
              omega
            · rw [hp.2.2.2.1]; exact ih.2.2
        | some data =>
            set m := manageCacheSize
              { s' with cache := jsSet s'.cache r.videoId ⟨data, now, 86400000⟩ } with hm
            have hmf := manageCacheSize_fields
              { s' with cache := jsSet s'.cache r.videoId ⟨data, now, 86400000⟩ }
            set s2 : VideoPreloader :=
              { m with inFlight := m.inFlight.erase r,
                       activeRequests := m.activeRequests - 1,
                       processingQueue := setDelete m.processingQueue r.videoId } with hs2
            have hp := processRequestQueue_spec s2
            have hd := drainLoop_spec s2.maxConcurrentRequests s2.requestQueue s2.activeRequests
            have hmem2 : r ∈ m.inFlight := by rw [hmf.2.2.1]; exact hmem
            have e1 : ({ s' with cache := jsSet s'.cache r.videoId ⟨data, now, 86400000⟩ } :
                VideoPreloader).activeRequests = s'.activeRequests := rfl
            have e2 : ({ s' with cache := jsSet s'.cache r.videoId ⟨data, now, 86400000⟩ } :
                VideoPreloader).maxConcurrentRequests = s'.maxConcurrentRequests := rfl
            have e3 : ({ s' with cache := jsSet s'.cache r.videoId ⟨data, now, 86400000⟩ } :
                VideoPreloader).inFlight = s'.inFlight := rfl
            refine ⟨?_, ?_, ?_⟩
            · rw [hp.2.1, hp.2.2.1, hd.2.1, List.length_append]
              have h2 : s2.activeRequests = m.activeRequests - 1 := rfl
              have h3 : s2.inFlight.length = m.inFlight.length - 1 :=
                List.length_erase_of_mem hmem2
              rw [h2, h3, hmf.2.1, hmf.2.2.1, e1, e3, hcard]
            · rw [hp.2.1]
              refine hd.2.2.1 ?_
              have h2 : s2.activeRequests = m.activeRequests - 1 := rfl
              have h4 : s2.maxConcurrentRequests = m.maxConcurrentRequests := rfl
              rw [h2, h4, hmf.2.1, hmf.2.2.2.1, e1, e2]
              have hle := ih.2.1
              omega
            · rw [hp.2.2.2.1]
              have h4 : s2.maxConcurrentRequests = m.maxConcurrentRequests := rfl
              rw [h4, hmf.2.2.2.1, e2]
              exact ih.2.2
  refine ⟨main.1, main.2.1, main.2.2, fun hne => ?_⟩
  have hp := processRequestQueue_spec s
  have hd := drainLoop_spec s.maxConcurrentRequests s.requestQueue s.activeRequests
  rw [hp.1] at hne
  have h1 := hd.2.2.2 hne
  have h2 := hd.2.2.1 main.2.1
  rw [hp.2.1]
  omega

theorem c4_concurrency_ceiling_witness :
    initPreloader.activeRequests = initPreloader.inFlight.length
    ∧ initPreloader.activeRequests ≤ initPreloader.maxConcurrentRequests :=
  ⟨(c4_concurrency_ceiling initPreloader PReach.init).1,
   (c4_concurrency_ceiling initPreloader PReach.init).2.1⟩

/-! ### Stable sort: ordering and tie stability -/

/-- The queue invariant: priorities are non-increasing from front to back. -/
def sortedDesc (l : List SchedReq) : Prop :=
  l.Pairwise (fun a b => b.priority ≤ a.priority)

theorem mem_stInsertBy {γ : Type} (lt : γ → γ → Bool) (l : List γ) (x z : γ) :
    z ∈ stInsertBy lt l x ↔ z = x ∨ z ∈ l := by
  induction l with
  | nil => simp [stInsertBy]
  | cons y ys ih =>
      by_cases h : lt x y
      · simp [stInsertBy, h]
      · simp only [stInsertBy, if_neg h, List.mem_cons, ih]
        tauto

theorem sortedDesc_stInsert (l : List SchedReq) (x : SchedReq) (h : sortedDesc l) :
    sortedDesc (stInsertBy (fun a b => a.priority > b.priority) l x) := by
  induction l with
  | nil => simp [stInsertBy, sortedDesc]
  | cons y ys ih =>
      rw [sortedDesc, List.pairwise_cons] at h
      by_cases hlt : x.priority > y.priority
      · have heq : stInsertBy (fun a b => a.priority > b.priority) (y :: ys) x
            = x :: y :: ys := by simp [stInsertBy, hlt]
        rw [heq, sortedDesc, List.pairwise_cons]
        refine ⟨fun z hz => ?_, List.pairwise_cons.mpr ⟨h.1, h.2⟩⟩
        rcases List.mem_cons.mp hz with rfl | hz'
        · exact le_of_lt hlt
        · exact le_trans (h.1 z hz') (le_of_lt hlt)
      · have heq : stInsertBy (fun a b => a.priority > b.priority) (y :: ys) x
            = y :: stInsertBy (fun a b => a.priority > b.priority) ys x := by
          simp [stInsertBy, hlt]
        rw [heq, sortedDesc, List.pairwise_cons]
        refine ⟨fun z hz => ?_, ih h.2⟩
        rcases (mem_stInsertBy _ _ _ _).mp hz with rfl | hz'
        · exact le_of_not_lt hlt
        · exact h.1 z hz'

theorem filter_stInsert_ne (l : List SchedReq) (x : SchedReq) (p : ℚ)
    (hx : x.priority ≠ p) :
    (stInsertBy (fun a b => a.priority > b.priority) l x).filter
        (fun r => r.priority = p)
      = l.filter (fun r => r.priority = p) := by
  induction l with
  | nil => simp [stInsertBy, hx]
  | cons y ys ih =>
      by_cases hlt : x.priority > y.priority
      · have heq : stInsertBy (fun a b => a.priority > b.priority) (y :: ys) x
            = x :: y :: ys := by simp [stInsertBy, hlt]
        rw [heq, List.filter_cons]
        simp [hx]
      · have heq : stInsertBy (fun a b => a.priority > b.priority) (y :: ys) x
            = y :: stInsertBy (fun a b => a.priority > b.priority) ys x := by
          simp [stInsertBy, hlt]
        rw [heq, List.filter_cons, List.filter_cons, ih]

theorem filter_stInsert_eq (l : List SchedReq) (x : SchedReq) (p : ℚ)
    (hx : x.priority = p) (h : sortedDesc l) :
    (stInsertBy (fun a b => a.priority > b.priority) l x).filter
        (fun r => r.priority = p)
      = l.filter (fun r => r.priority = p) ++ [x] := by
  induction l with
  | nil => simp [stInsertBy, hx]
  | cons y ys ih =>
      rw [sortedDesc, List.pairwise_cons] at h
      by_cases hlt : x.priority > y.priority
      · have heq : stInsertBy (fun a b => a.priority > b.priority) (y :: ys) x
            = x :: y :: ys := by simp [stInsertBy, hlt]
        have hy : y.priority < p := hx ▸ hlt
        have hnil : (y :: ys).filter (fun r => r.priority = p) = [] := by
          rw [List.filter_eq_nil_iff]
          intro z hz
          rcases List.mem_cons.mp hz with rfl | hz'
          · simpa using ne_of_lt hy
          · have hzle := h.1 z hz'
            simp only [decide_eq_true_eq]
            intro hzp
            rw [hzp] at hzle
            exact absurd hy (not_lt.mpr hzle)
        rw [heq, List.filter_cons, hnil]
        simp [hx]
      · have heq : stInsertBy (fun a b => a.priority > b.priority) (y :: ys) x
            = y :: stInsertBy (fun a b => a.priority > b.priority) ys x := by
          simp [stInsertBy, hlt]
        rw [heq, List.filter_cons, List.filter_cons, ih h.2]
        by_cases hyp : y.priority = p
        · simp [hyp]
        · simp [hyp]

theorem jsStableSort_spec (l : List SchedReq) :
    ∀ acc, sortedDesc acc →
      sortedDesc (List.foldl (stInsertBy (fun a b => a.priority > b.priority)) acc l)
      ∧ ∀ p : ℚ,
          (List.foldl (stInsertBy (fun a b => a.priority > b.priority)) acc l).filter
              (fun r => r.priority = p)
            = acc.filter (fun r => r.priority = p) ++ l.filter (fun r => r.priority = p) := by
  induction l with
  | nil => exact fun acc h => ⟨h, fun p => by simp⟩
  | cons x rest ih =>
      intro acc h
      have h1 := sortedDesc_stInsert acc x h
      have h2 := ih (stInsertBy (fun a b => a.priority > b.priority) acc x) h1
      refine ⟨h2.1, fun p => ?_⟩
      rw [List.foldl_cons, h2.2 p]
      by_cases hx : x.priority = p
      · rw [filter_stInsert_eq acc x p hx h, List.filter_cons]
        simp [hx]
      · rw [filter_stInsert_ne acc x p hx, List.filter_cons]
        simp [hx]

/-- The spec's Scenario A batch: keys `a, b, c, d, e` with priorities
`10, 5, 8, 1, 9`. -/
def scenarioARequests : List SchedReq :=
  [⟨"a", 10⟩, ⟨"b", 5⟩, ⟨"c", 8⟩, ⟨"d", 1⟩, ⟨"e", 9⟩]

/-- C5: the re-sorted queue is always in non-increasing priority order, and
the stable sort preserves the enqueue order of equal-priority requests (its
restriction to any fixed priority is unchanged), so dispatch — which takes
a prefix of the queue in order — proceeds by descending priority, FIFO among
ties.  Concretely, Scenario A: enqueuing `{a:10, b:5, c:8, d:1, e:9}` with
`maxConcurrentRequests = 3` dispatches `a, e, c` and leaves `b, d` queued. -/
theorem c5_dispatch_priority_order :
    ((preloadVideos initPreloader scenarioARequests).inFlight
        = [⟨"a", 10⟩, ⟨"e", 9⟩, ⟨"c", 8⟩]
      ∧ (preloadVideos initPreloader scenarioARequests).requestQueue
        = [⟨"b", 5⟩, ⟨"d", 1⟩])
    ∧ (∀ l : List SchedReq,
        sortedDesc (jsSortByPriorityDesc l)
        ∧ ∀ p : ℚ, (jsSortByPriorityDesc l).filter (fun r => r.priority = p)
            = l.filter (fun r => r.priority = p))
    ∧ (∀ s : VideoPreloader,
        s.requestQueue
          = (processRequestQueue s).inFlight.drop s.inFlight.length
            ++ (processRequestQueue s).requestQueue) := by
  refine ⟨⟨by decide, by decide⟩, fun l => ?_, fun s => ?_⟩
  · have h := jsStableSort_spec l [] (by simp [sortedDesc])
    exact ⟨h.1, fun p => by simpa using h.2 p⟩
  · have hp := processRequestQueue_spec s
    have hd := drainLoop_spec s.maxConcurrentRequests s.requestQueue s.activeRequests
    rw [hp.1, hp.2.2.1, List.drop_left]
    exact hd.1

/-! ### Lookup lemmas for `jsSet` / `jsDelete` -/

theorem jsGet_jsSet_self {β : Type} (m : JSMap β) (k : String) (v : β) :
    jsGet (jsSet m k v) k = some v := by
  induction m with
  | nil => simp [jsSet, jsGet]
  | cons p rest ih =>
      by_cases h : p.1 = k
      · simp [jsSet, jsGet, h]
      · simp [jsSet, jsGet, h, ih]

theorem jsGet_jsSet_ne {β : Type} (m : JSMap β) (k k' : String) (v : β)
    (h : k' ≠ k) : jsGet (jsSet m k v) k' = jsGet m k' := by
  have hk : ¬ k = k' := fun hk => h hk.symm
  induction m with
  | nil => simp [jsSet, jsGet, hk]
  | cons p rest ih =>
      by_cases hp : p.1 = k
      · subst hp
        simp [jsSet, jsGet, hk]
      · by_cases hp' : p.1 = k'
        · simp [jsSet, jsGet, hp, hp', h]
        · simp [jsSet, jsGet, hp, hp', ih]

theorem jsGet_jsDelete_self {β : Type} (m : JSMap β) (k : String) :
    jsGet (jsDelete m k) k = none := by
  induction m with
  | nil => simp [jsDelete, jsGet]
  | cons p rest ih =>
      by_cases h : p.1 = k
      · simp [jsDelete, jsGet, h, ih]
      · simp [jsDelete, jsGet, h, ih]

theorem jsGet_jsDelete_ne {β : Type} (m : JSMap β) (k k' : String)
    (h : k' ≠ k) : jsGet (jsDelete m k) k' = jsGet m k' := by
  induction m with
  | nil => simp [jsDelete, jsGet]
  | cons p rest ih =>
      by_cases hp : p.1 = k
      · have hk2 : ¬ k = k' := fun hk => h hk.symm
        simp [jsDelete, jsGet, hp, hk2, ih]
      · by_cases hp' : p.1 = k'
        · simp [jsDelete, jsGet, hp, hp', h]
        · simp [jsDelete, jsGet, hp, hp', ih]

/-! ## Background request deduplication — `QuickSightBackground`
(`src/background/service-worker.js`, "Testing Version" class, the
`getVideoSummary` branch of `handleMessage`, lines 652-698) -/

/-- An entry of the background cache as stored by `addToCache`
(`src/background/service-worker.js:737-750`). -/
structure BGCacheEntry where
  data : String
  timestamp : Nat
  ttl : Nat
  deriving DecidableEq, Repr

/-- `summary_${videoId}`, the dedup-table key. -/
def pendingKey (videoId : String) : String := "summary_" ++ videoId

/-- `bg_summary_${videoId}`, the background-cache key. -/
def bgCacheKey (videoId : String) : String := "bg_summary_" ++ videoId

/-- `addToCache(key, value)` (`src/background/service-worker.js:737-750`):
when full, evict the first key in `Map` iteration order, then store the
value wrapped with a timestamp and a fixed one-hour TTL. -/
def addToCache (cache : JSMap BGCacheEntry) (maxCacheSize : Nat) (k : String)
    (v : String) (now : Nat) : JSMap BGCacheEntry :=
  let c1 :=
    if cache.length ≥ maxCacheSize then
      match cache with
      | [] => cache
      | (k0, _) :: _ => jsDelete cache k0
    else cache
  jsSet c1 k ⟨v, now, 3600000⟩

/-- State of the background worker's dedup machinery.  `inFlight` holds the
(future id, key) of each running `processVideoSummary` promise; `waiters`
the callers attached (by `await`) to a shared promise; `responded` the
`sendResponse` payloads already delivered; `providerCalls` records each
`processVideoSummary` invocation. -/
structure BGState where
  pendingRequests : JSMap Nat
  cache : JSMap BGCacheEntry
  maxCacheSize : Nat
  inFlight : List (Nat × String)
  waiters : List (Nat × Nat)
  responded : List (Nat × String)
  providerCalls : List String
  nextFutureId : Nat
  deriving DecidableEq, Repr

/-- The constructor state (`src/background/service-worker.js:603-608`). -/
def initBGState : BGState :=
  { pendingRequests := [], cache := [], maxCacheSize := 100, inFlight := [],
    waiters := [], responded := [], providerCalls := [], nextFutureId := 0 }

/-- The `getVideoSummary` branch of `handleMessage`
(`src/background/service-worker.js:657-698`), one synchronous turn up to the
caller's `await`: a pending hit attaches the caller to the existing shared
promise; otherwise a raw `cache.has` hit responds immediately; otherwise
`processVideoSummary` is started (one Provider call), registered in
`pendingRequests`, and the caller awaits it. -/
def handleGetVideoSummary (s : BGState) (caller : Nat) (videoId : String) :
    BGState :=
  match jsGet s.pendingRequests (pendingKey videoId) with
  | some fid => { s with waiters := s.waiters ++ [(caller, fid)] }
  | none =>
      match jsGet s.cache (bgCacheKey videoId) with
      | some entry => { s with responded := s.responded ++ [(caller, entry.data)] }
      | none =>
          { s with
              providerCalls := s.providerCalls ++ [videoId]
              inFlight := s.inFlight ++ [(s.nextFutureId, videoId)]
              pendingRequests := jsSet s.pendingRequests (pendingKey videoId) s.nextFutureId
              waiters := s.waiters ++ [(caller, s.nextFutureId)]
              nextFutureId := s.nextFutureId + 1 }

/-- Settlement of the shared promise `fid` for `videoId`
(`src/background/service-worker.js:685-696`): `processVideoSummary` never
rejects (its body is wrapped in `try/catch` returning an error summary), so
the creator's continuation always runs: it deletes the dedup entry and
caches the result; every attached waiter (creator included) is responded to
with that same settled result.  All continuations of one promise run in the
same microtask turn, with no interleaved message handling. -/
def settleGetVideoSummary (s : BGState) (fid : Nat) (videoId : String)
    (result : String) (now : Nat) : BGState :=
  { s with
      inFlight := s.inFlight.erase (fid, videoId)
      pendingRequests := jsDelete s.pendingRequests (pendingKey videoId)
      cache := addToCache s.cache s.maxCacheSize (bgCacheKey videoId) result now
      waiters := s.waiters.filter (fun w => w.2 ≠ fid)
      responded := s.responded
        ++ (s.waiters.filter (fun w => w.2 = fid)).map (fun w => (w.1, result)) }

/-- Reachable background states: the constructor state, an incoming
`getVideoSummary` message, or the settlement of a running fetch (each
promise settles exactly once, hence the membership side condition). -/
inductive BGReach : BGState → Prop
  | init : BGReach initBGState
  | request {s : BGState} (caller : Nat) (videoId : String) :
      BGReach s → BGReach (handleGetVideoSummary s caller videoId)
  | settle {s : BGState} (fid : Nat) (videoId : String) (result : String) (now : Nat) :
      BGReach s → (fid, videoId) ∈ s.inFlight →
      BGReach (settleGetVideoSummary s fid videoId result now)

theorem pendingKey_inj {a b : String} (h : pendingKey a = pendingKey b) :
    a = b := by
  unfold pendingKey at h
  have h2 : ("summary_" ++ a).data = ("summary_" ++ b).data := congrArg String.data h
  simp only [String.data_append] at h2
  exact String.ext (List.append_cancel_left h2)

/-- In a list of (future id, key) pairs whose keys are pairwise distinct, a
key determines its pair. -/
theorem snd_nodup_unique {l : List (Nat × String)}
    (h : (l.map Prod.snd).Nodup) {x y : Nat × String}
    (hx : x ∈ l) (hy : y ∈ l) (he : x.2 = y.2) : x = y := by
  induction l with
  | nil => cases hx
  | cons z rest ih =>
      rw [List.map_cons, List.nodup_cons] at h
      rcases List.mem_cons.mp hx with rfl | hx' <;>
        rcases List.mem_cons.mp hy with rfl | hy'
      · rfl
      · exact absurd (he ▸ List.mem_map_of_mem Prod.snd hy') h.1
      · exact absurd (he ▸ List.mem_map_of_mem Prod.snd hx') h.1
      · exact ih h.2 hx' hy'

/-- C3: in every reachable background state, (i) a key has a dedup-table
(`pendingRequests`) entry naming future `fid` **iff** the fetch `fid` for
that key is currently executing, (ii) at most one fetch per key is in
flight (`inFlight` keys are pairwise distinct), (iii) a request arriving
while its key is pending only attaches the caller to the existing shared
future — no new Provider call, no new fetch, no state change beyond the
waiter list — and (iv) settlement responds to every waiter of that future
with the same settled result, so all concurrent callers receive an
identical outcome. -/
theorem c3_dedup_single_flight (s : BGState) (h : BGReach s) :
    (∀ v fid, jsGet s.pendingRequests (pendingKey v) = some fid ↔ (fid, v) ∈ s.inFlight)
    ∧ (s.inFlight.map Prod.snd).Nodup
    ∧ (∀ caller v fid, jsGet s.pendingRequests (pendingKey v) = some fid →
        handleGetVideoSummary s caller v = { s with waiters := s.waiters ++ [(caller, fid)] })
    ∧ (∀ fid v r now,
        (settleGetVideoSummary s fid v r now).responded
          = s.responded ++ (s.waiters.filter (fun w => w.2 = fid)).map (fun w => (w.1, r))) := by
  have main : (∀ v fid, jsGet s.pendingRequests (pendingKey v) = some fid ↔ (fid, v) ∈ s.inFlight)
      ∧ (s.inFlight.map Prod.snd).Nodup := by
    induction h with
    | init =>
        constructor
        · intro v fid
          simp [initBGState, jsGet]
        · simp [initBGState]
    | @request s' caller v hprev ih =>
        cases hpend : jsGet s'.pendingRequests (pendingKey v) with
        | some fid0 =>
            simp only [handleGetVideoSummary, hpend]
            exact ⟨fun w fid => ih.1 w fid, ih.2⟩
        | none =>
            cases hcache : jsGet s'.cache (bgCacheKey v) with
            | some entry =>
                simp only [handleGetVideoSummary, hpend, hcache]
                exact ⟨fun w fid => ih.1 w fid, ih.2⟩
            | none =>
                simp only [handleGetVideoSummary, hpend, hcache]
                constructor
                · intro w fid
                  by_cases hw : w = v
                  · subst hw
                    rw [jsGet_jsSet_self]
                    constructor
                    · intro heq
                      have hfid : fid = s'.nextFutureId := (Option.some.injEq _ _ ▸ heq).symm
                      subst hfid
                      exact List.mem_append_right _ (List.mem_singleton.mpr rfl)
                    · intro hm
                      rcases List.mem_append.mp hm with hm' | hm'
                      · exact absurd ((ih.1 w fid).mpr hm') (by rw [hpend]; exact fun h0 => Option.noConfusion h0)
                      · rw [List.mem_singleton] at hm'
                        rw [(Prod.mk.injEq _ _ _ _ ▸ hm' : fid = s'.nextFutureId ∧ w = w).1]
                  · have hkey : pendingKey w ≠ pendingKey v := fun he => hw (pendingKey_inj he)
                    rw [jsGet_jsSet_ne _ _ _ _ hkey]
                    constructor
                    · intro hg
                      exact List.mem_append_left _ ((ih.1 w fid).mp hg)
                    · intro hm
                      rcases List.mem_append.mp hm with hm' | hm'
                      · exact (ih.1 w fid).mpr hm'
                      · rw [List.mem_singleton, Prod.mk.injEq] at hm'
                        exact absurd hm'.2 hw
                · rw [List.map_append]
                  refine (List.nodup_append).mpr ⟨ih.2, by simp, ?_⟩
                  intro x hx hx'
                  simp only [List.map_cons, List.map_nil, List.mem_singleton] at hx'
                  obtain ⟨⟨fid', v'⟩, hmem', he⟩ := List.mem_map.mp hx
                  have hv : (fid', v) ∈ s'.inFlight := by
                    rwa [show v' = v from he.trans hx'] at hmem'
                  exact Option.noConfusion (hpend ▸ (ih.1 v fid').mpr hv)
    | @settle s' fid0 v r now hprev hmem ih =>
        constructor
        · intro w fid
          simp only [settleGetVideoSummary]
          by_cases hw : w = v
          · subst hw
            rw [jsGet_jsDelete_self]
            constructor
            · exact fun h0 => Option.noConfusion h0
            · intro hm
              have hm' : (fid, w) ∈ s'.inFlight := List.mem_of_mem_erase hm
              have heq : (fid, w) = (fid0, w) := snd_nodup_unique ih.2 hm' hmem rfl
              rw [heq] at hm
              have hnodup : s'.inFlight.Nodup := ih.2.of_map
              exact absurd rfl ((hnodup.mem_erase_iff.mp hm).1)
          · have hkey : pendingKey w ≠ pendingKey v := fun he => hw (pendingKey_inj he)
            rw [jsGet_jsDelete_ne _ _ _ hkey]
            have hne : (fid, w) ≠ (fid0, v) := fun he => hw (congrArg Prod.snd he)
            rw [List.mem_erase_of_ne hne]
            exact ih.1 w fid
        · simp only [settleGetVideoSummary]
          exact ih.2.sublist (List.Sublist.map _ (List.erase_sublist _ _))
  refine ⟨main.1, main.2, fun caller v fid hp => ?_, fun fid v r now => rfl⟩
  simp only [handleGetVideoSummary, hp]

theorem c3_dedup_single_flight_witness :
    (jsGet (handleGetVideoSummary initBGState 1 "v1").pendingRequests (pendingKey "v1") = some 0 ↔
      (0, "v1") ∈ (handleGetVideoSummary initBGState 1 "v1").inFlight)
    ∧ ((handleGetVideoSummary initBGState 1 "v1").inFlight.map Prod.snd).Nodup :=
  ⟨(c3_dedup_single_flight (handleGetVideoSummary initBGState 1 "v1")
      (BGReach.request 1 "v1" BGReach.init)).1 "v1" 0,
   (c3_dedup_single_flight (handleGetVideoSummary initBGState 1 "v1")
      (BGReach.request 1 "v1" BGReach.init)).2.1⟩

/-! ## Item Registry & Status Publisher — `QuickSightUIManager`
(`src/ui/ui-manager.js`, the consolidated variant; the earlier draft in
`unnamed/part_004:1115-1140` lacks the recovery scan) -/

/-- `videoData.status` strings (`'not_ready' | 'loading' | 'ready' |
'error'`). -/
inductive VideoStatus
  | not_ready
  | loading
  | ready
  | error
  deriving DecidableEq, Repr

/-- One registry entry as built by `registerVideo`
(`src/ui/ui-manager.js:95-107`).  `element` and `metadata` are opaque
host-environment references (DOM node and extracted metadata), stored
untouched. -/
structure VideoData where
  element : Nat
  status : VideoStatus
  quickSummary : Option String
  extendedSummary : Option String
  buttonInjected : Bool
  metadata : Nat
  deriving DecidableEq, Repr

/-- JS `Set.prototype.add` over element handles. -/
def setAddElem (s : List Nat) (x : Nat) : List Nat :=
  if x ∈ s then s else s ++ [x]

/-- State of `QuickSightUIManager` (`src/ui/ui-manager.js:2-10`):
the registry `Map` and the `processedElements` set. -/
structure UIManager where
  videoRegistry : JSMap VideoData
  processedElements : List Nat
  deriving DecidableEq, Repr

/-- `registerVideo(videoElement, videoId)` (`src/ui/ui-manager.js:95-107`):
unconditionally stores a fresh `not_ready` entry. -/
def registerVideo (m : UIManager) (el meta : Nat) (vid : String) : UIManager :=
  { m with videoRegistry :=
      jsSet m.videoRegistry vid ⟨el, .not_ready, none, none, false, meta⟩ }

/-- The registration step of the scan loop
(`src/ui/ui-manager.js:74-76`, likewise the mutation-observer path at
220-226): `registerVideo` runs only when the key is not yet known. -/
def registerVideoIfAbsent (m : UIManager) (el meta : Nat) (vid : String) :
    UIManager :=
  if jsHas m.videoRegistry vid then m else registerVideo m el meta vid

/-- The mutation applied to an existing entry by `updateVideoStatus`
(`src/ui/ui-manager.js:382-387`): set the status; `if (summaryData)` also
replace `quickSummary` (an absent/null payload leaves it). -/
def applyStatus (vd : VideoData) (st : VideoStatus) (summaryData : Option String) :
    VideoData :=
  { vd with status := st,
            quickSummary := match summaryData with
              | some d => some d
              | none => vd.quickSummary }

/-- `updateVideoStatus(videoId, status, summaryData)`
(`src/ui/ui-manager.js:362-390`).  When the key is unknown, the recovery
scan runs exactly once: `page` models the `document.querySelector(…)`
rediscovery hook, returning the element handle and extracted metadata when
the video is still on the page, and `injectOk` models whether
`injectUIElements` succeeds for that element (it sets `buttonInjected`).
On a successful rediscovery the entry is registered, the element is marked
processed, and the update is retried once — the retry finds the fresh
entry, so the requested transition is applied to it; on a failed
rediscovery the update is discarded and the state is unchanged.  The second
component counts the rediscovery attempts made. -/
def updateVideoStatus (m : UIManager) (page : String → Option (Nat × Nat))
    (injectOk : Nat → Bool) (vid : String) (st : VideoStatus)
    (summaryData : Option String) : UIManager × Nat :=
  match jsGet m.videoRegistry vid with
  | some vd =>
      ({ m with videoRegistry := jsSet m.videoRegistry vid (applyStatus vd st summaryData) }, 0)
  | none =>
      match page vid with
      | some (el, meta) =>
          let vd0 : VideoData := ⟨el, .not_ready, none, none, injectOk el, meta⟩
          let m1 : UIManager :=
            { m with videoRegistry := jsSet m.videoRegistry vid vd0,
                     processedElements := setAddElem m.processedElements el }
          ({ m1 with videoRegistry := jsSet m1.videoRegistry vid (applyStatus vd0 st summaryData) }, 1)
      | none => (m, 1)

/-- What `handleButtonClick` does besides mutating the registry. -/
inductive ClickEffect
  | noRegistryEntry
  | showTooltip
  | showLoadingTooltip
  | showErrorTooltip
  | requestStarted
  deriving DecidableEq, Repr

/-- `handleButtonClick(button)` (`src/ui/ui-manager.js:295-328`): dispatch
on the item's current status.  Only a `not_ready` item starts a new request
(`generateSummaryOnDemand`, whose synchronous part transitions the item to
`loading`); a `ready` item shows the cached tooltip, a `loading` item a
spinner, and an `error` item only an error tooltip — no new request. -/
def handleButtonClick (m : UIManager) (page : String → Option (Nat × Nat))
    (injectOk : Nat → Bool) (vid : String) : UIManager × ClickEffect :=
  match jsGet m.videoRegistry vid with
  | none => (m, .noRegistryEntry)
  | some vd =>
      match vd.status with
      | .ready => (m, .showTooltip)
      | .loading => (m, .showLoadingTooltip)
      | .not_ready => ((updateVideoStatus m page injectOk vid .loading none).1, .requestStarted)
      | .error => (m, .showErrorTooltip)

/-- The response callback of `generateSummaryOnDemand`
(`src/ui/ui-manager.js:342-360`): `some data` models a successful reply
(status `ready` with the payload), `none` a runtime error or a
`success: false` reply (status `error`; the error text is only displayed,
never stored in the registry). -/
def onDemandResponse (m : UIManager) (page : String → Option (Nat × Nat))
    (injectOk : Nat → Bool) (vid : String) (response : Option String) : UIManager :=
  match response with
  | some data => (updateVideoStatus m page injectOk vid .ready (some data)).1
  | none => (updateVideoStatus m page injectOk vid .error none).1

/-- The empty registry and trivial hooks, for concrete scenarios. -/
def emptyUI : UIManager := { videoRegistry := [], processedElements := [] }

def pageNone : String → Option (Nat × Nat) := fun _ => none

def injectNone : Nat → Bool := fun _ => false

/-- C8: when a status transition is requested for a key unknown to the
registry, the recovery scan (`rediscover`) runs exactly once — and never for
a known key; if it fails, the update is discarded and the whole manager
state is unchanged (a no-op against the missing item); if it succeeds, the
item is re-registered and the requested transition is applied to the fresh
entry. -/
theorem c8_unknown_key_rediscovery (m : UIManager)
    (page : String → Option (Nat × Nat)) (injectOk : Nat → Bool)
    (vid : String) (st : VideoStatus) (sd : Option String) :
    (∀ vd, jsGet m.videoRegistry vid = some vd →
        (updateVideoStatus m page injectOk vid st sd).2 = 0)
    ∧ (jsGet m.videoRegistry vid = none →
        (updateVideoStatus m page injectOk vid st sd).2 = 1)
    ∧ (jsGet m.videoRegistry vid = none → page vid = none →
        (updateVideoStatus m page injectOk vid st sd).1 = m)
    ∧ (jsGet m.videoRegistry vid = none → ∀ el meta, page vid = some (el, meta) →
        jsGet (updateVideoStatus m page injectOk vid st sd).1.videoRegistry vid
          = some (applyStatus ⟨el, .not_ready, none, none, injectOk el, meta⟩ st sd)) := by
  refine ⟨?_, ?_, ?_, ?_⟩
  · intro vd hvd
    simp only [updateVideoStatus, hvd]
  · intro hnone
    simp only [updateVideoStatus, hnone]
    cases hp : page vid with
    | none => simp [hp]
    | some pair =>
        cases pair with
        | mk el meta => simp [hp]
  · intro hnone hp
    simp only [updateVideoStatus, hnone, hp]
  · intro hnone el meta hp
    simp only [updateVideoStatus, hnone, hp]
    exact jsGet_jsSet_self _ _ _

theorem c8_unknown_key_rediscovery_witness :
    jsGet emptyUI.videoRegistry "y" = none
    ∧ (updateVideoStatus emptyUI pageNone injectNone "y" VideoStatus.ready none).2 = 1
    ∧ (updateVideoStatus emptyUI pageNone injectNone "y" VideoStatus.ready none).1 = emptyUI :=
  ⟨rfl,
   (c8_unknown_key_rediscovery emptyUI pageNone injectNone "y" VideoStatus.ready none).2.1 rfl,
   (c8_unknown_key_rediscovery emptyUI pageNone injectNone "y" VideoStatus.ready none).2.2.1 rfl rfl⟩

/-- A registry holding item `"y"` in `error` status. -/
def uiWithError : UIManager :=
  { videoRegistry := [("y", ⟨0, .error, none, none, true, 0⟩)], processedElements := [0] }

/-- C6 counterexample: clicking an item in `Error` status — the only
explicit-request path — leaves the registry untouched and shows only an
error tooltip; it does not re-enter `Loading`, so `Error` is terminal for
explicit requests, contrary to the claimed state machine. -/
theorem c6_error_click_starts_no_request :
    handleButtonClick uiWithError pageNone injectNone "y"
      = (uiWithError, ClickEffect.showErrorTooltip)
    ∧ (jsGet uiWithError.videoRegistry "y").map VideoData.status
        = some VideoStatus.error
    ∧ (handleButtonClick uiWithError pageNone injectNone "y").2
        ≠ ClickEffect.requestStarted := by
  refine ⟨by decide, by decide, by decide⟩

/-- C6 amended: every registration inserts the item in `NotReady` status;
the registration path is idempotent (a known key is left untouched); the
on-demand flow transitions `NotReady → Loading` on click and `Loading →
Ready` / `Loading → Error` on the reply.  However, `Ready` and `Error` do
not re-enter `Loading` on an explicit request: clicking a `Ready` item only
shows the cached tooltip and clicking an `Error` item only shows an error
tooltip, with no registry change and no new request. -/
theorem c6_registry_state_machine :
    (∀ (m : UIManager) (el meta : Nat) (vid : String),
        jsGet m.videoRegistry vid = none →
        jsGet (registerVideoIfAbsent m el meta vid).videoRegistry vid
          = some ⟨el, .not_ready, none, none, false, meta⟩)
    ∧ (∀ (m : UIManager) (el meta : Nat) (vid : String),
        jsHas m.videoRegistry vid = true → registerVideoIfAbsent m el meta vid = m)
    ∧ (∀ (m : UIManager) (page : String → Option (Nat × Nat)) (injectOk : Nat → Bool)
        (vid : String) (vd : VideoData),
        jsGet m.videoRegistry vid = some vd → vd.status = .not_ready →
        handleButtonClick m page injectOk vid
          = ({ m with videoRegistry := jsSet m.videoRegistry vid (applyStatus vd .loading none) },
             .requestStarted))
    ∧ (∀ (m : UIManager) (page : String → Option (Nat × Nat)) (injectOk : Nat → Bool)
        (vid : String) (vd : VideoData) (data : String),
        jsGet m.videoRegistry vid = some vd →
        jsGet (onDemandResponse m page injectOk vid (some data)).videoRegistry vid
          = some (applyStatus vd .ready (some data))
        ∧ jsGet (onDemandResponse m page injectOk vid none).videoRegistry vid
          = some (applyStatus vd .error none))
    ∧ (∀ (m : UIManager) (page : String → Option (Nat × Nat)) (injectOk : Nat → Bool)
        (vid : String) (vd : VideoData),
        jsGet m.videoRegistry vid = some vd →
        (vd.status = .ready → handleButtonClick m page injectOk vid = (m, .showTooltip))
        ∧ (vd.status = .error → handleButtonClick m page injectOk vid = (m, .showErrorTooltip))) := by
  refine ⟨?_, ?_, ?_, ?_, ?_⟩
  · intro m el meta vid hnone
    have hh : jsHas m.videoRegistry vid = false := by
      unfold jsHas
      rw [hnone]
      rfl
    simp only [registerVideoIfAbsent, hh, Bool.false_eq_true, if_false, registerVideo]
    exact jsGet_jsSet_self _ _ _
  · intro m el meta vid hh
    simp [registerVideoIfAbsent, hh]
  · intro m page injectOk vid vd hvd hst
    simp only [handleButtonClick, hvd, hst, updateVideoStatus]
  · intro m page injectOk vid vd data hvd
    constructor
    · simp only [onDemandResponse, updateVideoStatus, hvd]
      exact jsGet_jsSet_self _ _ _
    · simp only [onDemandResponse, updateVideoStatus, hvd]
      exact jsGet_jsSet_self _ _ _
  · intro m page injectOk vid vd hvd
    exact ⟨fun hst => by simp only [handleButtonClick, hvd, hst],
           fun hst => by simp only [handleButtonClick, hvd, hst]⟩

theorem c6_registry_state_machine_witness :
    jsGet emptyUI.videoRegistry "v" = none
    ∧ jsGet (registerVideoIfAbsent emptyUI 7 3 "v").videoRegistry "v"
        = some ⟨7, VideoStatus.not_ready, none, none, false, 3⟩ :=
  ⟨rfl, c6_registry_state_machine.1 emptyUI 7 3 "v" rfl⟩

/-- The registry state after registering `"y"`, requesting it (entering
`Loading`), and receiving a failure reply: the full failed-fetch scenario. -/
def uiAfterFailure : UIManager :=
  onDemandResponse
    (handleButtonClick (registerVideoIfAbsent emptyUI 0 0 "y") pageNone injectNone "y").1
    pageNone injectNone "y" none

/-- C7 counterexample: after a failed fetch puts `"y"` into `Error`, a
later explicit request (button click) does not transition it back through
`Loading`: the registry is unchanged and only an error tooltip is shown. -/
theorem c7_no_reload_after_error :
    (jsGet uiAfterFailure.videoRegistry "y").map VideoData.status
        = some VideoStatus.error
    ∧ handleButtonClick uiAfterFailure pageNone injectNone "y"
        = (uiAfterFailure, ClickEffect.showErrorTooltip) := by
  refine ⟨by decide, by decide⟩

/-- C7 amended: a failed fetch is isolated — the settlement of a failed
request writes no Cache Store entry, releases the concurrency slot and
immediately dispatches the next queued request; on the registry side only
the failed key transitions to `Error` (its error text is displayed, not
stored — entries have no `lastError` field) and every other key is
untouched.  A later explicit request for the errored key, however, does not
re-enter `Loading` (see the counterexample). -/
theorem c7_failure_isolation :
    (∀ (s : VideoPreloader) (r : SchedReq) (now : Nat),
        (settleRequest s r none now).cache = s.cache)
    ∧ (∀ (s : VideoPreloader) (r : SchedReq) (now : Nat) (q1 : SchedReq)
        (qrest : List SchedReq),
        s.requestQueue = q1 :: qrest →
        s.activeRequests = s.maxConcurrentRequests →
        0 < s.maxConcurrentRequests →
        q1 ∈ (settleRequest s r none now).inFlight)
    ∧ (∀ (m : UIManager) (page : String → Option (Nat × Nat)) (injectOk : Nat → Bool)
        (vid k : String) (vd : VideoData),
        jsGet m.videoRegistry vid = some vd →
        jsGet (onDemandResponse m page injectOk vid none).videoRegistry vid
          = some (applyStatus vd .error none)
        ∧ (k ≠ vid →
            jsGet (onDemandResponse m page injectOk vid none).videoRegistry k
              = jsGet m.videoRegistry k)) := by
  refine ⟨fun s r now => rfl, ?_, ?_⟩
  · intro s r now q1 qrest hq ha hpos
    set s2 : VideoPreloader :=
      { s with inFlight := s.inFlight.erase r,
               activeRequests := s.activeRequests - 1,
               processingQueue := setDelete s.processingQueue r.videoId } with hs2
    have hp := processRequestQueue_spec s2
    show q1 ∈ (processRequestQueue s2).inFlight
    rw [hp.2.2.1]
    refine List.mem_append_right _ ?_
    have hq2 : s2.requestQueue = q1 :: qrest := hq
    have hlt : s2.activeRequests < s2.maxConcurrentRequests := by
      show s.activeRequests - 1 < s.maxConcurrentRequests
      omega
    rw [hq2]
    simp only [drainLoop, if_pos hlt]
    exact List.mem_cons_self _ _
  · intro m page injectOk vid k vd hvd
    constructor
    · simp only [onDemandResponse, updateVideoStatus, hvd]
      exact jsGet_jsSet_self _ _ _
    · intro hk
      simp only [onDemandResponse, updateVideoStatus, hvd]
      exact jsGet_jsSet_ne _ _ _ _ hk

/-- A registry holding item `"y"` in `loading` status. -/
def uiLoading : UIManager :=
  { videoRegistry := [("y", ⟨0, .loading, none, none, true, 0⟩)], processedElements := [0] }

theorem c7_failure_isolation_witness :
    jsGet (onDemandResponse uiLoading pageNone injectNone "y" none).videoRegistry "y"
      = some (applyStatus ⟨0, VideoStatus.loading, none, none, true, 0⟩ VideoStatus.error none) :=
  (c7_failure_isolation.2.2 uiLoading pageNone injectNone "y" "z"
    ⟨0, VideoStatus.loading, none, none, true, 0⟩ rfl).1
